import Mathlib

/-!
Verification of the stenalgo chorded-keyboard layout generator.

This file shallowly embeds the parts of the Python source that the checked
claims are about:

* `src/src/keyboard.py` — `Keyboard.strokeIsLowerThen`, the `Starboard`
  layout (`phonemesAssignedToStroke`), `addToLayout`, `clearLayout`,
  `getStrokesOfPhoneme`, `getStrokeOfSyllableByPart`;
* `src/src/word.py` — `Word.fix_e_n_en`, `Word.parsePhonoSyll`,
  `Word.parseOrthoSyll`, `Word.replaceSyllables`;
* `src/src/grammar.py` — syllable partitioning into onset/nucleus/coda,
  `Syllable.replacePhonemeInSyllabicPart`, `SyllableCollection.getFrequency`,
  `SyllableCollection.syllabicAmbiguityScore`,
  `BiphonemeCollection.scorePermutation`, `BiphonemeCollection.optimizeOrder`;
* `src/src/cpsatsolver.py` — the layout-updating skeleton of
  `optimizeKeyboard` (the CP-SAT solver itself is external; its per-position
  outcome is passed in as an oracle).

Python strings are modelled as `List Char`, Python float frequencies as `ℚ`
(only ordered-field reasoning is used), Python dicts with insertion order as
association lists, and `while` loops as fuelled recursion with a fuel that
the loop's own variant bounds.
-/

namespace Stenalgo

/-! ### Keyboard.strokeIsLowerThen (src/src/keyboard.py 185-206)

The Python function compares the first keys, then the last keys, then
recurses on the middles `stroke1[1:-1]`, `stroke2[1:-1]`.  The recursion is
realised with a fuel argument equal to the length of the first stroke, which
bounds the recursion depth (the middle of a non-empty list is at least one
element shorter); the fuel-exhausted branch is unreachable from
`strokeIsLowerThen`. -/

/-- One translation of the comparison body; `fuel` bounds the recursion on the
middles of the strokes. -/
def strokeCmpAux : Nat → List Nat → List Nat → Int
  | _, [], [] => 1
  | _, [], _ :: _ => -1
  | _, _ :: _, [] => 1
  | fuel, a :: t1, b :: t2 =>
    if a < b then -1
    else if b < a then 1
    else
      let l1 := t1.getLastD a
      let l2 := t2.getLastD b
      if l1 < l2 then -1
      else if l2 < l1 then 1
      else
        match fuel with
        | 0 => 1
        | fuel + 1 => strokeCmpAux fuel t1.dropLast t2.dropLast

/-- `Keyboard.strokeIsLowerThen`: -1 when `stroke1` sorts strictly below
`stroke2`, comparing first keys, then last keys, then the middles. -/
def strokeIsLowerThen (stroke1 stroke2 : List Nat) : Int :=
  strokeCmpAux stroke1.length stroke1 stroke2

/-! ### Starboard layout (src/src/keyboard.py 264-426, 547-564)

`phonemesAssignedToStroke` is a Python dict from stroke tuples to lists of
phonemes; dicts preserve insertion order, so it is modelled as an association
list. -/

/-- The `phonemesAssignedToStroke` dict of a `Starboard`. -/
abbrev Layout := List (List Nat × List String)

/-- `Starboard._possibleKeys = list(range(26))`. -/
def possibleKeys : List Nat := List.range 26

/-- `Starboard._reservedKeys = [0, 1, 10, 15]`. -/
def reservedKeys : List Nat := [0, 1, 10, 15]

/-- `Starboard.__init__`: `allowedKeys` is the possible keys minus the
reserved ones. -/
def allowedKeys : List Nat := possibleKeys.filter (fun k => k ∉ reservedKeys)

/-- `Starboard.__init__` with the default partition
`(("onset", 8), ("nucleus", 4), ("coda", 10))`: successive slices of
`allowedKeys` per syllabic part. -/
def keyIDinSyllabicPart (syllabicPart : String) : List Nat :=
  if syllabicPart = "onset" then allowedKeys.take 8
  else if syllabicPart = "nucleus" then (allowedKeys.drop 8).take 4
  else if syllabicPart = "coda" then (allowedKeys.drop 12).take 10
  else []

/-- `Starboard.addToLayout`: append the phoneme to the stroke's list, adding
the stroke at the end of the dict when it is new. -/
def addToLayout (layout : Layout) (stroke : List Nat) (phoneme : String) : Layout :=
  if layout.any (fun e => e.1 = stroke) then
    layout.map (fun e => if e.1 = stroke then (e.1, e.2 ++ [phoneme]) else e)
  else
    layout ++ [(stroke, [phoneme])]

/-- `Starboard.clearLayout`: `phonemesAssignedToStroke = {}`. -/
def clearLayout (_layout : Layout) : Layout := []

/-- `Starboard.getStrokesOfPhoneme`: all strokes whose first key lies in the
given syllabic part and whose phoneme list contains the phoneme, in dict
(insertion) order. -/
def getStrokesOfPhoneme (layout : Layout) (phoneme : String) (syllabicPart : String) :
    List (List Nat) :=
  (layout.filter (fun e =>
    (match e.1.head? with
     | some k => decide (k ∈ keyIDinSyllabicPart syllabicPart)
     | none => false) && decide (phoneme ∈ e.2))).map (fun e => e.1)

/-- Inner loop of `Starboard.getStrokeOfSyllableByPart` over one part's
phoneme list: append every key of `getStrokesOfPhoneme(...)[0]` to the
accumulator.  `none` models the `IndexError` the Python raises when a phoneme
has no stroke. -/
def strokeOfPartAux (layout : Layout) (syllabicPart : String) :
    List String → List Nat → Option (List Nat)
  | [], acc => some acc
  | phoneme :: rest, acc =>
    match (getStrokesOfPhoneme layout phoneme syllabicPart).head? with
    | none => none
    | some stroke => strokeOfPartAux layout syllabicPart rest (acc ++ stroke)

/-- Outer loop of `Starboard.getStrokeOfSyllableByPart` over the
`phonemesByPart` dict items. -/
def strokeOfSyllableAux (layout : Layout) :
    List (String × List String) → List Nat → Option (List Nat)
  | [], acc => some acc
  | (syllabicPart, phonemes) :: rest, acc =>
    match strokeOfPartAux layout syllabicPart phonemes acc with
    | none => none
    | some acc' => strokeOfSyllableAux layout rest acc'

/-- `Starboard.getStrokeOfSyllableByPart`: concatenate, over the listed parts
and phonemes, the keys of the first stroke assigned to each phoneme. -/
def getStrokeOfSyllableByPart (layout : Layout) (phonemesByPart : List (String × List String)) :
    Option (List Nat) :=
  strokeOfSyllableAux layout phonemesByPart []

/-! ### optimizeKeyboard layout skeleton (src/src/cpsatsolver.py 418-520)

The CP-SAT models and the solver are external; what the claims are about is
the effect of `optimizeKeyboard` on the keyboard layout.  That effect is:
`keyboard.clearLayout()` (line 421), then, per syllabic part, either the
solver yields a solution (status `OPTIMAL` or `FEASIBLE`) and every
stroke/phoneme pair assigned in the solution is added with
`keyboard.addToLayout`, or it yields none and only `'No solution found.'` is
printed.  The per-part solver outcome is passed in as `results`: `none`
models a status that is neither `OPTIMAL` nor `FEASIBLE`, `some assigns`
models a solution together with the stroke/phoneme pairs extracted from it. -/

/-- Effect of `optimizeKeyboard` on `keyboard.phonemesAssignedToStroke`:
clear the layout, then add each solved part's assignments. -/
def optimizeKeyboardLayout (layout : Layout) (syllabicParts : List String)
    (results : String → Option (List (List Nat × String))) : Layout :=
  syllabicParts.foldl (fun l part =>
    match results part with
    | some assigns => assigns.foldl (fun l' sp => addToLayout l' sp.1 sp.2) l
    | none => l) (clearLayout layout)

/-! ### Word (src/src/word.py)

`rawSyllCV`, `rawOrthosyllCV` and `phonology` are modelled as `List Char`. -/

/-- `pat` occurs at the start of `s` (used for Python's `in` and `.index`). -/
def headMatches : List Char → List Char → Bool
  | [], _ => true
  | _ :: _, [] => false
  | a :: pat, b :: s => a = b && headMatches pat s

/-- Index of the first occurrence of `pat` in `s` (Python `s.find(pat)` /
`s.index(pat)`), `none` when absent (Python returns `-1` / raises). -/
def strFind (pat : List Char) : List Char → Option Nat
  | [] => if headMatches pat [] then some 0 else none
  | c :: rest =>
    if headMatches pat (c :: rest) then some 0
    else (strFind pat rest).map (· + 1)

/-- `Word.fix_e_n_en` (src/src/word.py 167-178): while `"@|n_"` occurs in the
phonemic string and `"e|n_"` in the orthographic one, splice the first
occurrences into `"@|"` and `"en|"` and recurse.  Each rewrite removes two
characters from the phonemic string, so fuel `s.length` covers every
iteration the Python recursion performs. -/
def fixEnEnAux : Nat → List Char → List Char → List Char × List Char
  | 0, s, o => (s, o)
  | fuel + 1, s, o =>
    match strFind "@|n_".data s, strFind "e|n_".data o with
    | some ps, some po =>
      fixEnEnAux fuel (s.take ps ++ "@|".data ++ s.drop (ps + 4))
        (o.take po ++ "en|".data ++ o.drop (po + 4))
    | _, _ => (s, o)

/-- `Word.fix_e_n_en` applied to `(rawSyllCV, rawOrthosyllCV)`. -/
def fix_e_n_en (rawSyllCV rawOrthosyllCV : List Char) : List Char × List Char :=
  fixEnEnAux rawSyllCV.length rawSyllCV rawOrthosyllCV

/-- Python `str.split(sep)` for a one-character separator (the source splits
on `"|"` and `"_"`); `"".split(sep) == [""]`. -/
def splitOnChar (sep : Char) : List Char → List (List Char)
  | [] => [[]]
  | c :: rest =>
    let r := splitOnChar sep rest
    if c = sep then [] :: r
    else
      match r with
      | [] => [[c]]
      | h :: t => (c :: h) :: t

/-- `Word.parsePhonoSyll` (src/src/word.py 204-206): split the raw string by
`'|'` into syllables, then each syllable by `'_'` into phoneme symbols. -/
def parsePhonoSyll (rawSyllCV : List Char) : List (List (List Char)) :=
  (splitOnChar '|' rawSyllCV).map (splitOnChar '_')

/-- `Word.parseOrthoSyll` (src/src/word.py 197-202): same splitting on the
orthographic raw string. -/
def parseOrthoSyll (rawOrthosyllCV : List Char) : List (List (List Char)) :=
  (splitOnChar '|' rawOrthosyllCV).map (splitOnChar '_')

/-- One iteration of the `while` loop of `Word.replaceSyllables`
(src/src/word.py 216-219), acting on the state `(phono, i)`: `none` when
`phono[i:].find(syll_orig)` returns `-1` and the loop exits, otherwise the
spliced phonology and the advanced search start. -/
def replaceStep (syll_orig syll_final : List Char) (phono : List Char) (i : Nat) :
    Option (List Char × Nat) :=
  match strFind syll_orig (phono.drop i) with
  | none => none
  | some rel =>
    let pos := rel + i
    some (phono.take pos ++ syll_final ++ phono.drop (syll_orig.length + pos),
      pos + syll_final.length)

/-- The `while` loop of `Word.replaceSyllables`, fuelled.  With a non-empty
`syll_orig` every iteration strictly shrinks the unsearched suffix
`phono[i:]` (proved below), so fuel `phono.length + 1` covers every
iteration; with an empty `syll_orig` the Python loop never exits. -/
def replaceLoop (syll_orig syll_final : List Char) :
    Nat → List Char → Nat → List Char
  | 0, phono, _ => phono
  | fuel + 1, phono, i =>
    match replaceStep syll_orig syll_final phono i with
    | none => phono
    | some (phono', i') => replaceLoop syll_orig syll_final fuel phono' i'

/-- `Word.replaceSyllables` (src/src/word.py 208-220) on the word's
`phonology`: early return when the two syllable names coincide, otherwise
run the replacement scan from position 0. -/
def replaceSyllables (phonology syll_orig syll_final : List Char) : List Char :=
  if syll_orig = syll_final then phonology
  else replaceLoop syll_orig syll_final (phonology.length + 1) phonology 0

/-! ### Syllables and ambiguity (src/src/grammar.py)

A `Phoneme` name is a single character (`Phoneme.name`, src/src/grammar.py
22-25).  A syllable is its ordered phoneme list plus its accumulated
frequency; its `name` is the concatenation of the phoneme symbols. -/

/-- `Phoneme.nucleusPhonemes` (src/src/grammar.py 34). -/
def nucleusPhonemes : List Char := "aeiE@o°§uy5O9821".data

/-- `Phoneme.isVowel`. -/
def isVowel (c : Char) : Bool := c ∈ nucleusPhonemes

/-- A `Syllable`: its phoneme symbols in order and its frequency
(`Syllable.name` is the concatenation of the symbols, so it is the phoneme
list itself). -/
structure Syll where
  phonemes : List Char
  frequency : ℚ

/-- The partition of a syllable's phonemes performed by
`Syllable.__init__` (src/src/grammar.py 444-473): before the first vowel a
consonant goes to the onset, after it to the coda; vowels go to the nucleus.
The boolean tracks whether a vowel has been seen (`firstVowelPos != -1`). -/
def partitionAux : List Char → Bool → List Char × List Char × List Char
  | [], _ => ([], [], [])
  | c :: rest, seenVowel =>
    if isVowel c then
      let (o, n, cd) := partitionAux rest true
      (o, c :: n, cd)
    else if seenVowel then
      let (o, n, cd) := partitionAux rest seenVowel
      (o, n, c :: cd)
    else
      let (o, n, cd) := partitionAux rest seenVowel
      (c :: o, n, cd)

/-- `Syllable.phonemesByPart[syllabicPart]`, as names. -/
def phonemesByPart (s : Syll) (syllabicPart : String) : List Char :=
  let (o, n, cd) := partitionAux s.phonemes false
  if syllabicPart = "onset" then o
  else if syllabicPart = "nucleus" then n
  else if syllabicPart = "coda" then cd
  else []

/-- Python `str.replace(old, new)` for a one-character `old` (the ambiguity
scorers always pass a single phoneme symbol): every occurrence of `c` is
replaced by `r`. -/
def replaceAll (c : Char) (r : List Char) : List Char → List Char
  | [] => []
  | x :: xs => (if x = c then r else [x]) ++ replaceAll c r xs

/-- `Syllable.replacePhonemeInSyllabicPart` (src/src/grammar.py 644-671):
replace `phoneme1` by `phoneme2` inside the chosen part and re-concatenate
onset, nucleus and coda; an unknown part returns the syllable unchanged. -/
def replacePhonemeInSyllabicPart (s : Syll) (phoneme1 : Char) (phoneme2 : List Char)
    (syllabicPart : String) : List Char :=
  let (o, n, cd) := partitionAux s.phonemes false
  if syllabicPart = "onset" then replaceAll phoneme1 phoneme2 o ++ n ++ cd
  else if syllabicPart = "coda" then o ++ n ++ replaceAll phoneme1 phoneme2 cd
  else if syllabicPart = "nucleus" then o ++ replaceAll phoneme1 phoneme2 n ++ cd
  else s.phonemes

/-- A `SyllableCollection`: the `syllables` list (`syllable_names` maps each
name to its unique syllable, modelled by first-match lookup). -/
abbrev SyllableCollection := List Syll

/-- `SyllableCollection.getFrequency` (src/src/grammar.py 745-759): frequency
of the syllable with the given name, `0.0` when the name is absent. -/
def getFrequency (col : SyllableCollection) (name : List Char) : ℚ :=
  match col.find? (fun s => s.phonemes = name) with
  | some s => s.frequency
  | none => 0

/-- `SyllableCollection.syllabicAmbiguityScore` (src/src/grammar.py
761-801): loop over the syllables containing `phoneme1` in the part,
accumulating the triple-ambiguity term when `phoneme2` shares the part and
the substitution term otherwise. -/
def syllabicAmbiguityScore (col : SyllableCollection) (phoneme1 phoneme2 : Char)
    (syllabicPart : String) : ℚ :=
  let phoneme1_syllables := col.filter (fun s => phoneme1 ∈ phonemesByPart s syllabicPart)
  phoneme1_syllables.foldl (fun score syll1 =>
    score +
      (if phoneme2 ∈ phonemesByPart syll1 syllabicPart then
        let short_syllable1 := replacePhonemeInSyllabicPart syll1 phoneme1 [] syllabicPart
        let short_syllable2 := replacePhonemeInSyllabicPart syll1 phoneme2 [] syllabicPart
        getFrequency col syll1.phonemes + getFrequency col short_syllable1 +
          getFrequency col short_syllable2 -
          max (getFrequency col syll1.phonemes)
            (max (getFrequency col short_syllable1) (getFrequency col short_syllable2))
      else
        let p1_to_p2 := replacePhonemeInSyllabicPart syll1 phoneme1 [phoneme2] syllabicPart
        min (getFrequency col syll1.phonemes) (getFrequency col p1_to_p2))) 0

/-- The syllabic ambiguity score as the spec states it: the sum, over the
syllables containing `phoneme1` at the position, of the drop-the-largest
triple term when `phoneme2` also occurs there and of the min-of-two term
otherwise.  Stated from the spec's words, to be compared with
`syllabicAmbiguityScore`. -/
def syllabicAmbiguitySpec (col : SyllableCollection) (phoneme1 phoneme2 : Char)
    (syllabicPart : String) : ℚ :=
  ((col.filter (fun s => phoneme1 ∈ phonemesByPart s syllabicPart)).map (fun syll1 =>
    if phoneme2 ∈ phonemesByPart syll1 syllabicPart then
      getFrequency col syll1.phonemes +
        getFrequency col (replacePhonemeInSyllabicPart syll1 phoneme1 [] syllabicPart) +
        getFrequency col (replacePhonemeInSyllabicPart syll1 phoneme2 [] syllabicPart) -
        max (getFrequency col syll1.phonemes)
          (max (getFrequency col (replacePhonemeInSyllabicPart syll1 phoneme1 [] syllabicPart))
            (getFrequency col (replacePhonemeInSyllabicPart syll1 phoneme2 [] syllabicPart)))
    else
      min (getFrequency col syll1.phonemes)
        (getFrequency col (replacePhonemeInSyllabicPart syll1 phoneme1 [phoneme2] syllabicPart)))).sum

/-! ### Biphoneme order optimizer (src/src/grammar.py 212-349)

`optimizeOrder` starts from a random permutation of the position's phonemes,
and for `windowScans` rounds mutates the current best with a random rotation
driven by `np.random.shuffle(randOrder)` and `shuffleSize ∈ [2, 6]`, then
slides a length-4 window over the mutated permutation, rescoring every window
permutation and keeping any candidate whose score beats the best.  The random
draws are passed in as data: one `(randOrder, shuffleSize)` pair per round. -/

/-- A `Biphoneme`: its ordered pair of phoneme symbols and its frequency. -/
structure Biphoneme where
  pair : Char × Char
  frequency : ℚ

/-- Python `permutation.index(c)` as used by `scorePermutation`; every
phoneme of a scored pair occurs in the permutation there, so the
out-of-range fallback of `findIdx` is never consulted. -/
def pyIndex (perm : List Char) (c : Char) : Nat := perm.findIdx (· = c)

/-- `BiphonemeCollection.scorePermutation` (src/src/grammar.py 337-349):
`(score, negScore)`; the `badOrder` diagnostic list is not modelled. -/
def scorePermutation (biphonemes : List Biphoneme) (permutation : List Char) : ℚ × ℚ :=
  biphonemes.foldl (fun (acc : ℚ × ℚ) bp =>
    if pyIndex permutation bp.pair.1 < pyIndex permutation bp.pair.2 then
      (acc.1 + bp.frequency, acc.2)
    else
      (acc.1 - bp.frequency, acc.2 - bp.frequency)) (0, 0)

/-- Python `l[i] = v` with its bounds check: `none` models the `IndexError`
on an out-of-range index. -/
def setChecked (l : List Char) (i : Nat) (v : Char) : Option (List Char) :=
  if i < l.length then some (l.set i v) else none

/-- The mutation step of `optimizeOrder` (src/src/grammar.py 301-308):
`tmp = best[randOrder[0]]`, then for `i` in `1..<shuffleSize`
`mutated[randOrder[i-1]] = best[randOrder[i]]`, finally
`mutated[randOrder[shuffleSize-1]] = tmp`.  Each indexing is bounds-checked;
`none` models the `IndexError` numpy raises when `randOrder` has fewer than
`shuffleSize` entries. -/
def mutate (best : List Char) (randOrder : List Nat) (shuffleSize : Nat) :
    Option (List Char) := do
  let i0 ← randOrder[0]?
  let tmp ← best[i0]?
  let mutated ← (List.range' 1 (shuffleSize - 1)).foldlM (fun (m : List Char) i => do
    let j ← randOrder[i - 1]?
    let ri ← randOrder[i]?
    let v ← best[ri]?
    setChecked m j v) best
  let jLast ← randOrder[shuffleSize - 1]?
  setChecked mutated jLast tmp

/-- The window positions of one scan (src/src/grammar.py 310-313):
`chain(range(n - w), range(n - w, 0, -1))`. -/
def scanPositions (n w : Nat) : List Nat :=
  List.range (n - w) ++ ((List.range (n - w)).map (· + 1)).reverse

/-- All candidates from one window position (src/src/grammar.py 314-320):
every permutation of `mutated[pos : pos+w]` spliced back in place. -/
def windowCands (mutated : List Char) (pos w : Nat) : List (List Char) :=
  ((mutated.drop pos).take w).permutations.map (fun subp =>
    mutated.take pos ++ subp ++ mutated.drop (pos + w))

/-- The candidate test of `optimizeOrder` (src/src/grammar.py 321-326): keep
the candidate when its score strictly beats the best score.  The state is
`(bestPermutation, bestScore, bestNegScore)`. -/
def optStep (biphonemes : List Biphoneme) (best : List Char × ℚ × ℚ) (cand : List Char) :
    List Char × ℚ × ℚ :=
  let s := scorePermutation biphonemes cand
  if best.2.1 < s.1 then (cand, s) else best

/-- The `windowScans` loop of `optimizeOrder`: one `(randOrder, shuffleSize)`
draw per round; the mutated permutation feeds a full left-to-right and
right-to-left window scan.  `n` is `len(phonemes)`, fixed at entry. -/
def optimizeLoop (biphonemes : List Biphoneme) (n : Nat) :
    List (List Nat × Nat) → List Char × ℚ × ℚ → Option (List Char × ℚ × ℚ)
  | [], best => some best
  | draw :: draws, best =>
    match mutate best.1 draw.1 draw.2 with
    | none => none
    | some mutated =>
      optimizeLoop biphonemes n draws
        (((scanPositions n 4).flatMap (fun pos => windowCands mutated pos 4)).foldl
          (optStep biphonemes) best)

/-- `BiphonemeCollection.optimizeOrder` (src/src/grammar.py 282-334) given
the initial (randomly shuffled) permutation and the per-round random draws:
the registered `(bestPermutation, bestScore, bestNegScore)`, or `none` when a
mutation indexes out of range (the Python `IndexError`). -/
def optimizeOrder (biphonemes : List Biphoneme) (initial : List Char)
    (draws : List (List Nat × Nat)) : Option (List Char × ℚ × ℚ) :=
  optimizeLoop biphonemes initial.length draws (initial, scorePermutation biphonemes initial)

/-- Spec-side helper for stating what `getStrokeOfSyllableByPart` returns:
the first stroke of every per-phoneme stroke list, `none` as soon as one
list is empty. -/
def collectHeads : List (List (List Nat)) → Option (List (List Nat))
  | [] => some []
  | ls :: rest =>
    match ls.head? with
    | none => none
    | some s => (collectHeads rest).map (s :: ·)

/-!
## Theorems
-/

/-- Comparing a stroke with itself always reaches the `stroke2 == ()` branch
on the exhausted middles and yields 1. -/
theorem strokeCmpAux_self : ∀ (fuel : Nat) (s : List Nat), strokeCmpAux fuel s s = 1 := by
  intro fuel
  induction fuel with
  | zero =>
    intro s
    cases s <;> simp [strokeCmpAux]
  | succ n ih =>
    intro s
    cases s with
    | nil => simp [strokeCmpAux]
    | cons a t => simp [strokeCmpAux, ih]

/-- Folding an accumulate-only loop body is summing over the list. -/
theorem foldl_add_eq_sum {α : Type} (g : α → ℚ) :
    ∀ (l : List α) (init : ℚ), l.foldl (fun acc x => acc + g x) init = init + (l.map g).sum := by
  intro l
  induction l with
  | nil => intro init; simp
  | cons x xs ih =>
    intro init
    simp only [List.foldl_cons, List.map_cons, List.sum_cons, ih]
    ring

/-- C2 (counterexample): `strokeIsLowerThen((0,1,10),(0,1,10))` does not
return 0 — the function has no equality branch and yields 1 on identical
strokes. -/
theorem strokeIsLowerThen_equal_not_zero : strokeIsLowerThen [0, 1, 10] [0, 1, 10] ≠ 0 := by
  decide

/-- C2 (amended): `strokeIsLowerThen((0,1,10),(0,2,10))` returns -1, and on
two identical strokes `strokeIsLowerThen` returns 1 (not 0): the recursion on
the middles bottoms out in the `stroke2 == ()` branch, which returns 1. -/
theorem strokeIsLowerThen_spec :
    strokeIsLowerThen [0, 1, 10] [0, 2, 10] = -1 ∧
      ∀ s : List Nat, strokeIsLowerThen s s = 1 := by
  refine ⟨by decide, ?_⟩
  intro s
  exact strokeCmpAux_self s.length s

/-- C6: on the `enivre` row, `fix_e_n_en` rewrites `"@|n_i_v_R_#"` /
`"e|n_i_v_r_e"` to `"@|i_v_R_#"` / `"en|i_v_r_e"`, and parsing yields
`syllCV = [["@"], ["i","v","R","#"]]` and
`orthosyllCV = [["en"], ["i","v","r","e"]]`. -/
theorem enivre_nasal_fix :
    parsePhonoSyll (fix_e_n_en "@|n_i_v_R_#".data "e|n_i_v_r_e".data).1 =
        [["@".data], ["i".data, "v".data, "R".data, "#".data]] ∧
      parseOrthoSyll (fix_e_n_en "@|n_i_v_R_#".data "e|n_i_v_r_e".data).2 =
        [["en".data], ["i".data, "v".data, "r".data, "e".data]] := by
  decide

/-- C9: `replaceSyllables(s, s)` returns the phonology unchanged, by the
early-return on equal syllable names. -/
theorem replaceSyllables_same (phonology s : List Char) :
    replaceSyllables phonology s s = phonology := by
  simp [replaceSyllables]

/-- The layout-filling fold of `optimizeKeyboard` leaves the layout alone on
every part whose solve produced no solution. -/
theorem foldl_results_none (results : String → Option (List (List Nat × String))) :
    ∀ (parts : List String) (acc : Layout), (∀ p ∈ parts, results p = none) →
      parts.foldl (fun l part =>
        match results part with
        | some assigns => assigns.foldl (fun l' sp => addToLayout l' sp.1 sp.2) l
        | none => l) acc = acc := by
  intro parts
  induction parts with
  | nil => intro acc _; rfl
  | cons part rest ih =>
    intro acc h
    have hp : results part = none := h part (List.mem_cons_self part rest)
    simp only [List.foldl_cons, hp]
    exact ih acc (fun q hq => h q (List.mem_cons_of_mem part hq))

/-- C1 (counterexample): a keyboard holding the stroke `(2,) → ["p"]` loses
that layout when `optimizeKeyboard` runs and the solver returns no solution
for the only position: the layout was cleared at entry and nothing restores
it. -/
theorem optimizeKeyboard_no_solution_loses_layout :
    optimizeKeyboardLayout [([2], ["p"])] ["onset"] (fun _ => none) = [] ∧
      ([([2], ["p"])] : Layout) ≠ [] := by
  exact ⟨rfl, by decide⟩

/-- C1 (amended): `optimizeKeyboard` clears the whole layout before solving;
a position whose solve returns no solution contributes no strokes, so the
layout in place before the call is not restored — when every position's
solve fails the resulting layout is empty whatever it held before. -/
theorem optimizeKeyboard_all_no_solution_empty (layout : Layout) (parts : List String)
    (results : String → Option (List (List Nat × String)))
    (h : ∀ p ∈ parts, results p = none) :
    optimizeKeyboardLayout layout parts results = [] := by
  unfold optimizeKeyboardLayout
  exact foldl_results_none results parts (clearLayout layout) h

/-- Witness for `optimizeKeyboard_all_no_solution_empty` at a concrete
layout, parts and solver outcome. -/
theorem optimizeKeyboard_all_no_solution_empty_witness :
    optimizeKeyboardLayout [([2], ["p"]), ([11], ["a"])] ["onset", "nucleus", "coda"]
      (fun _ => none) = [] :=
  optimizeKeyboard_all_no_solution_empty _ _ _ (fun _ _ => rfl)

/-- C3 (counterexample): with `"a"` on stroke `(3,)` and `"b"` on stroke
`(2,)`, listing the onset phonemes as `["a","b"]` yields the key tuple
`(3,2)` while `["b","a"]` yields `(2,3)`: the result follows the listing
order and is not sorted by the canonical stroke order. -/
theorem getStrokeOfSyllableByPart_not_sorted :
    getStrokeOfSyllableByPart (addToLayout (addToLayout [] [3] "a") [2] "b")
        [("onset", ["a", "b"])] = some [3, 2] ∧
      getStrokeOfSyllableByPart (addToLayout (addToLayout [] [3] "a") [2] "b")
        [("onset", ["b", "a"])] = some [2, 3] := by
  decide

/-- `collectHeads` distributes over list concatenation. -/
theorem collectHeads_append :
    ∀ l1 l2 : List (List (List Nat)), collectHeads (l1 ++ l2) =
      match collectHeads l1 with
      | none => none
      | some a => (collectHeads l2).map (a ++ ·) := by
  intro l1 l2
  induction l1 with
  | nil =>
    simp only [List.nil_append, collectHeads]
    cases collectHeads l2 <;> simp
  | cons ls rest ih =>
    simp only [List.cons_append, collectHeads, ih]
    cases ls.head? with
    | none => rfl
    | some s =>
      cases hr : collectHeads rest with
      | none => simp [ih, hr]
      | some a =>
        cases hl : collectHeads l2 with
        | none => simp [ih, hr, hl]
        | some b => simp [ih, hr, hl]

/-- The inner phoneme loop of `getStrokeOfSyllableByPart` appends the heads
of the per-phoneme stroke lists to the accumulator. -/
theorem strokeOfPartAux_eq (layout : Layout) (syllabicPart : String) :
    ∀ (phonemes : List String) (acc : List Nat),
      strokeOfPartAux layout syllabicPart phonemes acc =
        (collectHeads (phonemes.map (fun ph => getStrokesOfPhoneme layout ph syllabicPart))).map
          (fun ls => acc ++ ls.flatten) := by
  intro phonemes
  induction phonemes with
  | nil => intro acc; simp [strokeOfPartAux, collectHeads]
  | cons ph rest ih =>
    intro acc
    simp only [strokeOfPartAux, List.map_cons, collectHeads]
    cases h : (getStrokesOfPhoneme layout ph syllabicPart).head? with
    | none => rfl
    | some s =>
      simp only [ih]
      cases collectHeads (rest.map (fun ph => getStrokesOfPhoneme layout ph syllabicPart)) with
      | none => rfl
      | some ls => simp [Option.map, List.append_assoc]

/-- The outer part loop of `getStrokeOfSyllableByPart` appends the heads of
all listed parts' per-phoneme stroke lists to the accumulator. -/
theorem strokeOfSyllableAux_eq (layout : Layout) :
    ∀ (phonemesByPart : List (String × List String)) (acc : List Nat),
      strokeOfSyllableAux layout phonemesByPart acc =
        (collectHeads (phonemesByPart.flatMap (fun pp =>
          pp.2.map (fun ph => getStrokesOfPhoneme layout ph pp.1)))).map
          (fun ls => acc ++ ls.flatten) := by
  intro pbp
  induction pbp with
  | nil => intro acc; simp [strokeOfSyllableAux, collectHeads]
  | cons pp rest ih =>
    intro acc
    obtain ⟨part, phonemes⟩ := pp
    simp only [strokeOfSyllableAux, List.flatMap_cons, collectHeads_append,
      strokeOfPartAux_eq]
    cases collectHeads (phonemes.map (fun ph => getStrokesOfPhoneme layout ph part)) with
    | none => rfl
    | some ls1 =>
      simp only [Option.map, ih]
      cases collectHeads (rest.flatMap (fun pp =>
          pp.2.map (fun ph => getStrokesOfPhoneme layout ph pp.1))) with
      | none => rfl
      | some ls2 => simp [List.flatten_append, List.append_assoc]

/-- C3 (amended): `getStrokeOfSyllableByPart` returns the concatenation, in
the order the positions and phonemes are listed, of the keys of the first
stroke assigned to each phoneme (`none` when a phoneme has no stroke); no
`strokeIsLowerThen` sorting is applied, so the tuple depends on the listing
order. -/
theorem getStrokeOfSyllableByPart_eq_flatten (layout : Layout)
    (phonemesByPart : List (String × List String)) :
    getStrokeOfSyllableByPart layout phonemesByPart =
      (collectHeads (phonemesByPart.flatMap (fun pp =>
        pp.2.map (fun ph => getStrokesOfPhoneme layout ph pp.1)))).map List.flatten := by
  unfold getStrokeOfSyllableByPart
  rw [strokeOfSyllableAux_eq]
  cases collectHeads (phonemesByPart.flatMap (fun pp =>
      pp.2.map (fun ph => getStrokesOfPhoneme layout ph pp.1))) <;> simp

/-- C5: for distinct phonemes the accumulated syllabic ambiguity score is
exactly the spec's sum — over the syllables containing `p1` at the position,
the drop-the-largest triple term when `p2` shares the position and the
min-of-two substitution term otherwise, with absent syllable names scoring
frequency 0. -/
theorem syllabicAmbiguityScore_eq_spec (col : SyllableCollection) (phoneme1 phoneme2 : Char)
    (syllabicPart : String) (_h : phoneme1 ≠ phoneme2) :
    syllabicAmbiguityScore col phoneme1 phoneme2 syllabicPart =
      syllabicAmbiguitySpec col phoneme1 phoneme2 syllabicPart := by
  unfold syllabicAmbiguityScore syllabicAmbiguitySpec
  rw [foldl_add_eq_sum, zero_add]

/-- Witness for `syllabicAmbiguityScore_eq_spec` on a concrete collection
and the distinct pair `('p', 'l')`. -/
theorem syllabicAmbiguityScore_eq_spec_witness :
    syllabicAmbiguityScore [⟨"pla".data, 7⟩, ⟨"pa".data, 5⟩, ⟨"la".data, 3⟩] 'p' 'l' "onset" =
      syllabicAmbiguitySpec [⟨"pla".data, 7⟩, ⟨"pa".data, 5⟩, ⟨"la".data, 3⟩] 'p' 'l' "onset" :=
  syllabicAmbiguityScore_eq_spec _ _ _ _ (by decide)

/-- On the self-pair `(p, p)` every syllable of the loop takes the triple
branch with coinciding shortened readings, and the triple term collapses to
`min(freq, freq-removed) + freq-removed`. -/
theorem syllabicAmbiguity_self_sum (col : SyllableCollection) (p : Char)
    (syllabicPart : String) :
    syllabicAmbiguityScore col p p syllabicPart =
      ((col.filter (fun s => p ∈ phonemesByPart s syllabicPart)).map (fun s =>
        min (getFrequency col s.phonemes)
            (getFrequency col (replacePhonemeInSyllabicPart s p [] syllabicPart)) +
          getFrequency col (replacePhonemeInSyllabicPart s p [] syllabicPart))).sum := by
  unfold syllabicAmbiguityScore
  rw [foldl_add_eq_sum, zero_add]
  apply congrArg List.sum
  apply List.map_congr_left
  intro s hs
  have hp : p ∈ phonemesByPart s syllabicPart := by
    have := List.mem_filter.1 hs
    simpa using this.2
  rw [if_pos hp]
  simp only [max_self]
  have hmm := min_add_max (getFrequency col s.phonemes)
    (getFrequency col (replacePhonemeInSyllabicPart s p [] syllabicPart))
  linarith

/-- C7 (counterexample): with syllables `"pa"` (frequency 5) and `"a"`
(frequency 3) in the collection, `syllabicAmbiguityScore('p','p',onset)`
is 6, not 0: the self-pair always takes the triple branch and the two
shortened readings coincide. -/
theorem syllabicAmbiguityScore_self_not_zero :
    syllabicAmbiguityScore [⟨"pa".data, 5⟩, ⟨"a".data, 3⟩] 'p' 'p' "onset" ≠ 0 := by
  rw [syllabicAmbiguity_self_sum]
  have hfilter : ([⟨"pa".data, 5⟩, ⟨"a".data, 3⟩] : SyllableCollection).filter
      (fun s => 'p' ∈ phonemesByPart s "onset") = [⟨"pa".data, 5⟩] := by rfl
  have h1 : replacePhonemeInSyllabicPart ⟨"pa".data, 5⟩ 'p' [] "onset" = "a".data := by rfl
  have h2 : getFrequency [⟨"pa".data, 5⟩, ⟨"a".data, 3⟩] (Syll.mk "pa".data 5).phonemes = 5 := by
    rfl
  have h3 : getFrequency [⟨"pa".data, 5⟩, ⟨"a".data, 3⟩] "a".data = 3 := by rfl
  rw [hfilter]
  simp only [List.map_cons, List.map_nil, List.sum_cons, List.sum_nil, h1, h2, h3]
  norm_num [min_def]

/-- C7 (amended): called with `p1 = p2 = p`, `syllabicAmbiguityScore` returns
the sum, over the syllables containing `p` at the position, of
`min(freq(s), freq(s with p removed)) + freq(s with p removed)`; this is 0
when every `p`-removed name is absent (frequency 0) but not unconditionally
(`lexicalAmbiguityScore`'s triple branch has the same shape). -/
theorem syllabicAmbiguityScore_self_eq (col : SyllableCollection) (p : Char)
    (syllabicPart : String) :
    syllabicAmbiguityScore col p p syllabicPart =
      ((col.filter (fun s => p ∈ phonemesByPart s syllabicPart)).map (fun s =>
        min (getFrequency col s.phonemes)
            (getFrequency col (replacePhonemeInSyllabicPart s p [] syllabicPart)) +
          getFrequency col (replacePhonemeInSyllabicPart s p [] syllabicPart))).sum :=
  syllabicAmbiguity_self_sum col p syllabicPart

/-- One candidate test never lowers the best score. -/
theorem optStep_le (biphonemes : List Biphoneme) (best : List Char × ℚ × ℚ)
    (cand : List Char) : best.2.1 ≤ (optStep biphonemes best cand).2.1 := by
  simp only [optStep]
  split
  · next hlt => exact le_of_lt hlt
  · exact le_refl _

/-- A whole window scan never lowers the best score. -/
theorem foldl_optStep_le (biphonemes : List Biphoneme) :
    ∀ (cands : List (List Char)) (best : List Char × ℚ × ℚ),
      best.2.1 ≤ (cands.foldl (optStep biphonemes) best).2.1 := by
  intro cands
  induction cands with
  | nil => intro best; exact le_refl _
  | cons c rest ih =>
    intro best
    exact le_trans (optStep_le biphonemes best c) (ih (optStep biphonemes best c))

/-- Across the whole scan loop the best score never drops below the score of
the state it started from. -/
theorem optimizeLoop_le (biphonemes : List Biphoneme) (n : Nat) :
    ∀ (draws : List (List Nat × Nat)) (best : List Char × ℚ × ℚ)
      (p : List Char) (s ns : ℚ),
      optimizeLoop biphonemes n draws best = some (p, s, ns) → best.2.1 ≤ s := by
  intro draws
  induction draws with
  | nil =>
    intro best p s ns h
    unfold optimizeLoop at h
    cases h
    exact le_refl _
  | cons draw rest ih =>
    intro best p s ns h
    unfold optimizeLoop at h
    cases hm : mutate best.1 draw.1 draw.2 with
    | none => rw [hm] at h; cases h
    | some mutated =>
      rw [hm] at h
      exact le_trans (foldl_optStep_le biphonemes _ best) (ih _ p s ns h)

/-- C4: whatever random draws drive the scan rounds, the score registered by
`optimizeOrder` is at least the score of the initial random permutation it
started from: a candidate replaces the best only when its score is strictly
larger. -/
theorem optimizeOrder_score_monotone (biphonemes : List Biphoneme) (initial : List Char)
    (draws : List (List Nat × Nat)) (p : List Char) (s ns : ℚ)
    (h : optimizeOrder biphonemes initial draws = some (p, s, ns)) :
    (scorePermutation biphonemes initial).1 ≤ s := by
  unfold optimizeOrder at h
  have := optimizeLoop_le biphonemes initial.length draws
    (initial, scorePermutation biphonemes initial) p s ns h
  simpa using this

/-- Witness for `optimizeOrder_score_monotone`: an empty biphoneme
collection, initial permutation `"ab"`, one scan round whose draw swaps the
two phonemes; the registered score 0 is at least the initial score. -/
theorem optimizeOrder_score_monotone_witness :
    (scorePermutation [] "ab".data).1 ≤ 0 :=
  optimizeOrder_score_monotone [] "ab".data [([0, 1], 2)] "ab".data 0 0 (by rfl)

/-- A pattern matching at the head is no longer than the string. -/
theorem headMatches_length : ∀ (pat s : List Char), headMatches pat s = true →
    pat.length ≤ s.length := by
  intro pat
  induction pat with
  | nil => intro s _; exact Nat.zero_le _
  | cons a rest ih =>
    intro s h
    cases s with
    | nil => simp [headMatches] at h
    | cons b t =>
      simp only [headMatches, Bool.and_eq_true] at h
      simpa using ih t h.2

/-- A pattern found at index `r` fits inside the string. -/
theorem strFind_some_le : ∀ (pat s : List Char) (r : Nat), strFind pat s = some r →
    r + pat.length ≤ s.length := by
  intro pat s
  induction s with
  | nil =>
    intro r h
    simp only [strFind] at h
    split at h
    · next hm =>
      cases h
      simpa using headMatches_length pat [] hm
    · cases h
  | cons c rest ih =>
    intro r h
    simp only [strFind] at h
    split at h
    · next hm =>
      cases h
      simpa using headMatches_length pat (c :: rest) hm
    · cases hrec : strFind pat rest with
      | none => rw [hrec] at h; cases h
      | some r' =>
        rw [hrec] at h
        cases h
        have := ih r' hrec
        simp only [List.length_cons]
        omega

/-- The empty pattern is found at index 0 of every string. -/
theorem strFind_nil_pat : ∀ s : List Char, strFind [] s = some 0 := by
  intro s
  cases s <;> simp [strFind, headMatches]

/-- C10: each iteration of the `replaceSyllables` scan over a non-empty
`syll_orig` strictly shrinks the unsearched suffix `phono[i:]`, so the loop
terminates; with an empty `syll_orig` the find never fails, so the loop
guard never exits (the non-empty precondition matters). -/
theorem replaceStep_measure :
    (∀ (syll_orig syll_final phono : List Char) (i : Nat) (phono' : List Char) (i' : Nat),
      syll_orig ≠ [] → replaceStep syll_orig syll_final phono i = some (phono', i') →
        phono'.length - i' < phono.length - i) ∧
    (∀ (syll_final phono : List Char) (i : Nat),
      replaceStep [] syll_final phono i ≠ none) := by
  constructor
  · intro syll_orig syll_final phono i phono' i' hne h
    unfold replaceStep at h
    cases hf : strFind syll_orig (phono.drop i) with
    | none => rw [hf] at h; cases h
    | some rel =>
      rw [hf] at h
      cases h
      have hfit : rel + syll_orig.length ≤ phono.length - i := by
        have := strFind_some_le syll_orig (phono.drop i) rel hf
        simpa using this
      have horig : 0 < syll_orig.length := List.length_pos.2 hne
      have hpos : rel + i ≤ phono.length := by omega
      simp only [List.length_append, List.length_take, List.length_drop,
        Nat.min_eq_left hpos]
      omega
  · intro syll_final phono i
    unfold replaceStep
    rw [strFind_nil_pat]
    simp

/-- Witness for `replaceStep_measure` at `syll_orig = "a"`,
`syll_final = "b"`, phonology `"a"`, scan start 0: the step rewrites to
`"b"` with next start 1, and the unsearched suffix shrinks from 1 to 0. -/
theorem replaceStep_measure_witness :
    (['a'] : List Char) ≠ [] ∧ (['b'] : List Char).length - 1 < (['a'] : List Char).length - 0 :=
  ⟨by decide, replaceStep_measure.1 ['a'] ['b'] ['a'] 0 ['b'] 1 (by decide) (by rfl)⟩

/-- `range' 1 (k-1)` starts at 1 when `k ≥ 2`, so the mutation loop reads
`randOrder[1]`, which a one-phoneme `randOrder = [0]` does not have. -/
theorem mutate_single_none (best : List Char) :
    ∀ k : Nat, 2 ≤ k → mutate best [0] k = none := by
  intro k hk
  obtain ⟨m, rfl⟩ : ∃ m, k = 2 + m := ⟨k - 2, by omega⟩
  unfold mutate
  have hrange : (2 + m) - 1 = m + 1 := by omega
  rw [hrange, List.range'_succ]
  simp

/-- C8: on a position whose biphoneme collection covers the single phoneme
`'s'` the phoneme list has length 1, `randOrder = [0]`, and every round's
draw has `shuffleSize ∈ [2, 6]`; the first mutation indexes `randOrder[1]`
out of range, so `optimizeOrder` raises (modelled `none`) instead of
returning the one-character permutation with score 0. -/
theorem optimizeOrder_single_phoneme_crashes (biphonemes : List Biphoneme)
    (k : Nat) (rest : List (List Nat × Nat)) (hk : 2 ≤ k) :
    optimizeOrder biphonemes ['s'] (([0], k) :: rest) = none := by
  unfold optimizeOrder optimizeLoop
  rw [mutate_single_none ['s'] k hk]

/-- Witness for `optimizeOrder_single_phoneme_crashes` with an empty
biphoneme list, `shuffleSize = 2` and a single round. -/
theorem optimizeOrder_single_phoneme_crashes_witness :
    optimizeOrder [] ['s'] [([0], 2)] = none :=
  optimizeOrder_single_phoneme_crashes [] 2 [] (by decide)

end Stenalgo
